import Mathlib

/-!
Verification of the `filerewrite` utility (Go) against its specification.

The per-file rewrite engine (`rewriteFile` in `filerewrite.go`) is embedded
shallowly: a file is a list of bytes plus access/modification timestamps, and
the kernel-level behaviour that the program cannot control (I/O errors, short
writes, clock values observed by the filesystem on reads and writes) is an
explicit environment `SysEnv`.  The copy loop is fuel-indexed; `none` means
the fuel ran out, which never happens for fuel larger than the file size.
Machine 64-bit integer arithmetic in the driver is modelled on `Int` with an
explicit wrap modulo 2^64.
-/

namespace Filerewrite

/-- `syscall.Timespec`: seconds and nanoseconds. -/
structure Timespec where
  sec : Int
  nsec : Int
deriving DecidableEq, Repr

/-- `syscall.Timeval`: seconds and microseconds. -/
structure Timeval where
  sec : Int
  usec : Int
deriving DecidableEq, Repr

/-- Go `syscall.TimespecToNsec`: `ts.Sec*1e9 + ts.Nsec`. -/
def timespecToNsec (ts : Timespec) : Int :=
  ts.sec * 1000000000 + ts.nsec

/-- Go `syscall.NsecToTimeval`: rounds up to the next microsecond, then splits
into seconds and microseconds using Go's truncated division and remainder. -/
def nsecToTimeval (nsec0 : Int) : Timeval :=
  let nsec := nsec0 + 999
  let usec := (nsec.tmod 1000000000).tdiv 1000
  let sec := nsec.tdiv 1000000000
  if usec < 0 then { sec := sec - 1, usec := usec + 1000000 }
  else { sec := sec, usec := usec }

/-- Effect of `futimes` on the stored timestamp: the file keeps the
microsecond-precision value, i.e. a `Timespec` whose nanosecond part is the
microsecond count times 1000. -/
def timevalToTimespec (tv : Timeval) : Timespec :=
  { sec := tv.sec, nsec := tv.usec * 1000 }

/-- The timestamp actually stored after the engine restores a captured
`Timespec` through `NsecToTimeval`/`Futimes` — the captured value at the
precision of the restoration call. -/
def restoreSpec (ts : Timespec) : Timespec :=
  timevalToTimespec (nsecToTimeval (timespecToNsec ts))

/-- The observable state of the file being rewritten: its byte content and
its access/modification timestamps. -/
structure FileState where
  content : List Nat
  atime : Timespec
  mtime : Timespec
deriving DecidableEq, Repr

/-- Environment of kernel behaviours outside the program's control, indexed by
the copy-loop iteration where relevant.  `writeAmt i n` is how many of the `n`
requested bytes the `i`-th `pwrite` accepts (clamped to at most `n` by the
model); the clocks are the timestamps the filesystem records on reads and
writes. -/
structure SysEnv where
  openOk : Bool
  fstatOk : Bool
  isReg : Bool
  statTimesOk : Bool
  futimesOk : Bool
  readErr : Nat → Bool
  writeErr : Nat → Bool
  writeAmt : Nat → Nat → Nat
  readClock : Nat → Timespec
  writeClock : Nat → Timespec

/-- The bytes a positioned read of `len` bytes at `offset` returns: `pread`
on a regular file returns `min len (size - offset)` bytes from `offset`. -/
def readSlice (c : List Nat) (offset len : Nat) : List Nat :=
  (c.drop offset).take len

/-- Effect of a positioned write of `data` at `offset`: the bytes
`[offset, offset + data.length)` are replaced, the rest is unchanged (with
zero-fill in the never-reached case `offset > length`). -/
def writeAt (c : List Nat) (offset : Nat) (data : List Nat) : List Nat :=
  c.take offset ++ List.replicate (offset - c.length) 0 ++ data ++
    c.drop (offset + data.length)

/-- Result of the stream copy loop: out of fuel, terminal failure, or
end-of-file reached.  The `Nat` arguments after the state are the final
offset (for `done`) and the number of `pwrite` calls that wrote at least one
byte. -/
inductive LoopResult where
  | fuelOut : LoopResult
  | failed : FileState → Nat → LoopResult
  | done : FileState → Nat → Nat → LoopResult
deriving DecidableEq, Repr

/-- The stream copy loop of `rewriteFile` (filerewrite.go lines 103–130):
positioned read at `offset` (error → failure; zero bytes → end of file),
positioned write of the bytes just read at the same offset (error or zero
bytes written → failure; short write → warning only), then the offset
advances by the number of bytes actually written. -/
def copyLoop (env : SysEnv) (bufLen : Nat) :
    Nat → FileState → Nat → Nat → Nat → LoopResult
  | 0, _, _, _, _ => .fuelOut
  | fuel + 1, fs, offset, i, writes =>
    if env.readErr i then .failed fs writes
    else
      let rdone := min bufLen (fs.content.length - offset)
      if rdone = 0 then .done { fs with atime := env.readClock i } offset writes
      else if env.writeErr i then .failed { fs with atime := env.readClock i } writes
      else
        let wdone := min (env.writeAmt i rdone) rdone
        if wdone = 0 then .failed { fs with atime := env.readClock i } writes
        else
          copyLoop env bufLen fuel
            { content := writeAt fs.content offset ((readSlice fs.content offset rdone).take wdone),
              atime := env.readClock i, mtime := env.writeClock i }
            (offset + wdone) (i + 1) (writes + 1)

/-- `rewriteFile` (filerewrite.go lines 82–147): open with `O_RDWR|O_NOFOLLOW`,
`fstat`, regular-file check, the copy loop from offset 0, then timestamp
extraction from the stat snapshot (`statTimes`) and restoration (`Futimes`).
Returns `none` when the loop fuel ran out, otherwise the boolean result, the
final file state, and the number of data-writing `pwrite` calls performed. -/
def rewriteFile (env : SysEnv) (bufferSizeBytes : Nat) (fs0 : FileState)
    (fuel : Nat) : Option (Bool × FileState × Nat) :=
  if !env.openOk then some (false, fs0, 0)
  else if !env.fstatOk then some (false, fs0, 0)
  else if !env.isReg then some (false, fs0, 0)
  else
    match copyLoop env bufferSizeBytes fuel fs0 0 0 0 with
    | .fuelOut => none
    | .failed fs w => some (false, fs, w)
    | .done fs _ w =>
      if !env.statTimesOk then some (false, fs, w)
      else if !env.futimesOk then some (false, fs, w)
      else
        some (true,
          { fs with
              atime := restoreSpec fs0.atime,
              mtime := restoreSpec fs0.mtime }, w)

/-- Writing back any amount of the data just read from `offset` leaves the
file content unchanged: the bytes written are exactly the bytes already
there. -/
theorem writeAt_readSlice (c : List Nat) (off j : Nat) (h : off ≤ c.length) :
    writeAt c off (readSlice c off j) = c := by
  unfold writeAt readSlice
  have hrep : off - c.length = 0 := Nat.sub_eq_zero_of_le h
  have hlen : ((c.drop off).take j).length = min j (c.length - off) := by
    rw [List.length_take, List.length_drop]
  have hdrop : c.drop (off + min j (c.length - off)) = c.drop (off + j) := by
    rcases Nat.le_total j (c.length - off) with hj | hj
    · rw [Nat.min_eq_left hj]
    · rw [Nat.min_eq_right hj]
      have h1 : c.drop (off + (c.length - off)) = [] :=
        List.drop_eq_nil_of_le (by omega)
      have h2 : c.drop (off + j) = [] := List.drop_eq_nil_of_le (by omega)
      rw [h1, h2]
  rw [hrep, hlen, hdrop]
  simp only [List.replicate_zero, List.nil_append, List.append_nil,
    List.append_assoc, List.drop_take_append_drop, List.take_append_drop]

/-- A prefix of the bytes just read is also a read of that many bytes. -/
theorem readSlice_take (c : List Nat) (off j w : Nat) :
    (readSlice c off j).take w = readSlice c off (min w j) := by
  unfold readSlice
  rw [List.take_take]

/-- Writing back a prefix of the data just read also leaves the content
unchanged. -/
theorem writeAt_readSlice_take (c : List Nat) (off j w : Nat)
    (h : off ≤ c.length) :
    writeAt c off ((readSlice c off j).take w) = c := by
  rw [readSlice_take, writeAt_readSlice c off (min w j) h]

/-- Invariant of the copy loop: on every non-fuel-out outcome, the byte
content of the resulting state equals the byte content of the starting
state — each iteration writes back to `offset` exactly (a prefix of) the
bytes it just read from `offset`. -/
theorem copyLoop_content (env : SysEnv) (b : Nat) :
    ∀ fuel fs offset i writes,
      (∀ fs' w', copyLoop env b fuel fs offset i writes = .failed fs' w' →
        fs'.content = fs.content) ∧
      (∀ fs' o' w', copyLoop env b fuel fs offset i writes = .done fs' o' w' →
        fs'.content = fs.content) := by
  intro fuel
  induction fuel with
  | zero =>
    intro fs offset i writes
    constructor
    · intro fs' w' h; simp [copyLoop] at h
    · intro fs' o' w' h; simp [copyLoop] at h
  | succ fuel ih =>
    intro fs offset i writes
    by_cases hre : env.readErr i
    · constructor
      · intro fs' w' h
        simp [copyLoop, hre] at h
        rw [h.1]
      · intro fs' o' w' h
        simp [copyLoop, hre] at h
    · by_cases hr0 : min b (fs.content.length - offset) = 0
      · constructor
        · intro fs' w' h
          simp [copyLoop, hre, hr0] at h
        · intro fs' o' w' h
          simp [copyLoop, hre, hr0] at h
          rw [← h.1]
      · have hoff : offset < fs.content.length := by
          rcases Nat.lt_or_ge offset fs.content.length with h | h
          · exact h
          · exfalso; apply hr0
            have : fs.content.length - offset = 0 := Nat.sub_eq_zero_of_le h
            simp [this]
        by_cases hwe : env.writeErr i
        · constructor
          · intro fs' w' h
            simp [copyLoop, hre, hr0, hwe] at h
            rw [← h.1]
          · intro fs' o' w' h
            simp [copyLoop, hre, hr0, hwe] at h
        · by_cases hw0 :
            min (env.writeAmt i (min b (fs.content.length - offset)))
              (min b (fs.content.length - offset)) = 0
          · constructor
            · intro fs' w' h
              simp [copyLoop, hre, hr0, hwe, hw0] at h
              rw [← h.1]
            · intro fs' o' w' h
              simp [copyLoop, hre, hr0, hwe, hw0] at h
          · have hstep : copyLoop env b (fuel + 1) fs offset i writes =
                copyLoop env b fuel
                  { content := writeAt fs.content offset
                      ((readSlice fs.content offset
                        (min b (fs.content.length - offset))).take
                        (min (env.writeAmt i (min b (fs.content.length - offset)))
                          (min b (fs.content.length - offset)))),
                    atime := env.readClock i, mtime := env.writeClock i }
                  (offset +
                    min (env.writeAmt i (min b (fs.content.length - offset)))
                      (min b (fs.content.length - offset))) (i + 1) (writes + 1) := by
              simp [copyLoop, hre, hr0, hwe, hw0]
            have hcont : writeAt fs.content offset
                ((readSlice fs.content offset
                  (min b (fs.content.length - offset))).take
                  (min (env.writeAmt i (min b (fs.content.length - offset)))
                    (min b (fs.content.length - offset)))) = fs.content :=
              writeAt_readSlice_take _ _ _ _ (Nat.le_of_lt hoff)
            constructor
            · intro fs' w' h
              rw [hstep] at h
              have := (ih _ _ _ _).1 fs' w' h
              rw [this, hcont]
            · intro fs' o' w' h
              rw [hstep] at h
              have := (ih _ _ _ _).2 fs' o' w' h
              rw [this, hcont]

/-- The copy loop never runs out of fuel when the fuel exceeds the number of
bytes remaining: every continuing iteration writes at least one byte, so the
offset strictly increases toward end-of-file. -/
theorem copyLoop_ne_fuelOut (env : SysEnv) (b : Nat) :
    ∀ fuel fs offset i writes, fs.content.length - offset < fuel →
      copyLoop env b fuel fs offset i writes ≠ .fuelOut := by
  intro fuel
  induction fuel with
  | zero =>
    intro fs offset i writes h
    exact absurd h (Nat.not_lt_zero _)
  | succ fuel ih =>
    intro fs offset i writes h
    by_cases hre : env.readErr i
    · simp [copyLoop, hre]
    · by_cases hr0 : min b (fs.content.length - offset) = 0
      · simp [copyLoop, hre, hr0]
      · have hoff : offset < fs.content.length := by
          rcases Nat.lt_or_ge offset fs.content.length with h' | h'
          · exact h'
          · exfalso; apply hr0
            have : fs.content.length - offset = 0 := Nat.sub_eq_zero_of_le h'
            simp [this]
        by_cases hwe : env.writeErr i
        · simp [copyLoop, hre, hr0, hwe]
        · by_cases hw0 :
            min (env.writeAmt i (min b (fs.content.length - offset)))
              (min b (fs.content.length - offset)) = 0
          · simp [copyLoop, hre, hr0, hwe, hw0]
          · have hstep : copyLoop env b (fuel + 1) fs offset i writes =
                copyLoop env b fuel
                  { content := writeAt fs.content offset
                      ((readSlice fs.content offset
                        (min b (fs.content.length - offset))).take
                        (min (env.writeAmt i (min b (fs.content.length - offset)))
                          (min b (fs.content.length - offset)))),
                    atime := env.readClock i, mtime := env.writeClock i }
                  (offset +
                    min (env.writeAmt i (min b (fs.content.length - offset)))
                      (min b (fs.content.length - offset))) (i + 1) (writes + 1) := by
              simp [copyLoop, hre, hr0, hwe, hw0]
            rw [hstep]
            apply ih
            simp only [writeAt_readSlice_take _ _ _ _ (Nat.le_of_lt hoff)]
            have hw1 : min (env.writeAmt i (min b (fs.content.length - offset)))
                (min b (fs.content.length - offset)) ≠ 0 := hw0
            omega

/-- Inversion of a successful `rewriteFile`: every guard passed, the
timestamp restoration succeeded, and the result is the completed copy-loop
state with the timestamps captured at open time restored. -/
theorem rewriteFile_success_inv (env : SysEnv) (b : Nat) (fs0 : FileState)
    (fuel : Nat) (fs' : FileState) (w : Nat)
    (h : rewriteFile env b fs0 fuel = some (true, fs', w)) :
    env.openOk = true ∧ env.fstatOk = true ∧ env.isReg = true ∧
    env.statTimesOk = true ∧ env.futimesOk = true ∧
    ∃ fs o', copyLoop env b fuel fs0 0 0 0 = .done fs o' w ∧
      fs' = { fs with atime := restoreSpec fs0.atime,
                      mtime := restoreSpec fs0.mtime } := by
  unfold rewriteFile at h
  by_cases ho : env.openOk
  swap
  · simp [ho] at h
  by_cases hf : env.fstatOk
  swap
  · simp [ho, hf] at h
  by_cases hg : env.isReg
  swap
  · simp [ho, hf, hg] at h
  simp only [ho, hf, hg, Bool.not_true, Bool.false_eq_true, if_false] at h
  cases hc : copyLoop env b fuel fs0 0 0 0 with
  | fuelOut => rw [hc] at h; simp at h
  | failed fs w' => rw [hc] at h; simp at h
  | done fs o' w' =>
    rw [hc] at h
    by_cases hst : env.statTimesOk
    swap
    · simp [hst] at h
    by_cases hfu : env.futimesOk
    swap
    · simp [hst, hfu] at h
    simp [hst, hfu] at h
    obtain ⟨h1, h2⟩ := h
    subst h2
    exact ⟨ho, hf, hg, hst, hfu, fs, o', rfl, h1.symm⟩

/-- On any `some` outcome of `rewriteFile`, success or failure, the file's
byte content equals the original: the engine only ever writes back the bytes
it just read. -/
theorem rewriteFile_content_of_some (env : SysEnv) (b : Nat) (fs0 : FileState)
    (fuel : Nat) (r : Bool) (fs' : FileState) (w : Nat)
    (h : rewriteFile env b fs0 fuel = some (r, fs', w)) :
    fs'.content = fs0.content := by
  unfold rewriteFile at h
  by_cases ho : env.openOk
  swap
  · simp [ho] at h; rw [← h.2.1]
  by_cases hf : env.fstatOk
  swap
  · simp [ho, hf] at h; rw [← h.2.1]
  by_cases hg : env.isReg
  swap
  · simp [ho, hf, hg] at h; rw [← h.2.1]
  simp only [ho, hf, hg, Bool.not_true, Bool.false_eq_true, if_false] at h
  cases hc : copyLoop env b fuel fs0 0 0 0 with
  | fuelOut => rw [hc] at h; simp at h
  | failed fs w' =>
    rw [hc] at h
    simp at h
    rw [← h.2.1]
    exact (copyLoop_content env b fuel fs0 0 0 0).1 fs w' hc
  | done fs o' w' =>
    rw [hc] at h
    have hdone : fs.content = fs0.content :=
      (copyLoop_content env b fuel fs0 0 0 0).2 fs o' w' hc
    by_cases hst : env.statTimesOk
    swap
    · simp [hst] at h; rw [← h.2.1]; exact hdone
    by_cases hfu : env.futimesOk
    swap
    · simp [hst, hfu] at h; rw [← h.2.1]; exact hdone
    simp [hst, hfu] at h
    rw [← h.2.1]
    exact hdone

/-- A fully well-behaved kernel environment: all calls succeed, every write
accepts all requested bytes. -/
def envOk : SysEnv where
  openOk := true
  fstatOk := true
  isReg := true
  statTimesOk := true
  futimesOk := true
  readErr := fun _ => false
  writeErr := fun _ => false
  writeAmt := fun _ n => n
  readClock := fun _ => ⟨5, 0⟩
  writeClock := fun _ => ⟨6, 0⟩

/-- Like `envOk` except the `futimes` call fails. -/
def envNoFutimes : SysEnv := { envOk with futimesOk := false }

/-- Like `envOk` except the stat snapshot exposes no usable timestamp
fields (`statTimes` returns not-ok). -/
def envNoStatTimes : SysEnv := { envOk with statTimesOk := false }

/-- A three-byte example file. -/
def fsEx : FileState := ⟨[1, 2, 3], ⟨10, 500⟩, ⟨20, 700⟩⟩

/-- `fsEx` right after the copy loop under `envOk`: content unchanged,
timestamps touched by the reads and writes. -/
def fsLooped : FileState := ⟨[1, 2, 3], ⟨5, 0⟩, ⟨6, 0⟩⟩

/-- `fsEx` after a fully successful rewrite under `envOk`: content unchanged,
timestamps restored at microsecond precision. -/
def fsRestored : FileState := ⟨[1, 2, 3], ⟨10, 1000⟩, ⟨20, 1000⟩⟩

/-- C1: for every regular file of any size and every strictly positive buffer
size, if `rewriteFile` returns success then the byte content afterwards is
bit-for-bit identical to the content before the call; in particular the final
content does not depend on which positive buffer size was used. -/
theorem rewriteFile_byte_fidelity (env : SysEnv) (fs0 : FileState)
    (b fuel : Nat) (fs' : FileState) (w : Nat) (hb : 0 < b)
    (h : rewriteFile env b fs0 fuel = some (true, fs', w)) :
    fs'.content = fs0.content :=
  rewriteFile_content_of_some env b fs0 fuel true fs' w h

theorem rewriteFile_byte_fidelity_witness :
    0 < 2 ∧ fsRestored.content = fsEx.content :=
  ⟨by decide,
    rewriteFile_byte_fidelity envOk fsEx 2 10 fsRestored 2 (by decide) (by decide)⟩

/-- C2: on success the final access and modification timestamps are the
values captured from the metadata snapshot taken at open time, at the
precision of the restoration call (`NsecToTimeval`, microseconds); and if the
timestamp-restoring call fails, `rewriteFile` reports failure even though the
data had already been rewritten (the content is the original one). -/
theorem rewriteFile_timestamp_fidelity (env : SysEnv) (b : Nat)
    (fs0 : FileState) (fuel : Nat) (r : Bool) (fs' : FileState) (w : Nat)
    (h : rewriteFile env b fs0 fuel = some (r, fs', w)) :
    (r = true → env.futimesOk = true ∧
      fs'.atime = restoreSpec fs0.atime ∧ fs'.mtime = restoreSpec fs0.mtime) ∧
    (env.futimesOk = false → r = false ∧ fs'.content = fs0.content) := by
  constructor
  · intro hr
    subst hr
    obtain ⟨-, -, -, -, hfu, fs, o', -, hfs⟩ :=
      rewriteFile_success_inv env b fs0 fuel fs' w h
    subst hfs
    exact ⟨hfu, rfl, rfl⟩
  · intro hfu
    refine ⟨?_, rewriteFile_content_of_some env b fs0 fuel r fs' w h⟩
    cases r with
    | false => rfl
    | true =>
      obtain ⟨-, -, -, -, hfu', -⟩ :=
        rewriteFile_success_inv env b fs0 fuel fs' w h
      rw [hfu] at hfu'
      exact absurd hfu' (by simp)

theorem rewriteFile_timestamp_fidelity_witness :
    ((false = true → envNoFutimes.futimesOk = true ∧
        fsLooped.atime = restoreSpec fsEx.atime ∧
        fsLooped.mtime = restoreSpec fsEx.mtime) ∧
      (envNoFutimes.futimesOk = false → false = false ∧
        fsLooped.content = fsEx.content)) :=
  rewriteFile_timestamp_fidelity envNoFutimes 2 fsEx 10 false fsLooped 2
    (by decide)

/-- C9: the stream copy loop terminates for every file of finite size: with
fuel exceeding the file length, `rewriteFile` never exhausts its fuel,
because every continuing iteration writes at least one byte and so strictly
advances the offset toward end-of-file. -/
theorem rewriteFile_terminates (env : SysEnv) (b fuel : Nat)
    (fs0 : FileState) (h : fs0.content.length < fuel) :
    rewriteFile env b fs0 fuel ≠ none := by
  intro hnone
  unfold rewriteFile at hnone
  by_cases ho : env.openOk
  swap
  · simp [ho] at hnone
  by_cases hf : env.fstatOk
  swap
  · simp [ho, hf] at hnone
  by_cases hg : env.isReg
  swap
  · simp [ho, hf, hg] at hnone
  simp only [ho, hf, hg, Bool.not_true, Bool.false_eq_true, if_false] at hnone
  cases hc : copyLoop env b fuel fs0 0 0 0 with
  | fuelOut =>
    exact copyLoop_ne_fuelOut env b fuel fs0 0 0 0 (by omega) hc
  | failed fs w =>
    rw [hc] at hnone
    simp at hnone
  | done fs o w =>
    rw [hc] at hnone
    by_cases hst : env.statTimesOk
    · by_cases hfu : env.futimesOk
      · simp [hst, hfu] at hnone
      · simp [hst, hfu] at hnone
    · simp [hst] at hnone

theorem rewriteFile_terminates_witness :
    fsEx.content.length < 4 ∧ rewriteFile envOk 2 fsEx 4 ≠ none :=
  ⟨by decide, rewriteFile_terminates envOk 2 4 fsEx (by decide)⟩

/-- C8: with a buffer size of exactly 0 bytes, the first positioned read
returns zero bytes, the copy loop exits immediately as at end-of-file, and
`rewriteFile` reports success after restoring the timestamps, having written
no file data at all. -/
theorem rewriteFile_zero_buffer (env : SysEnv) (fs0 : FileState) (fuel : Nat)
    (ho : env.openOk = true) (hf : env.fstatOk = true) (hg : env.isReg = true)
    (hst : env.statTimesOk = true) (hfu : env.futimesOk = true)
    (hre : env.readErr 0 = false) :
    rewriteFile env 0 fs0 (fuel + 1) =
      some (true, { content := fs0.content, atime := restoreSpec fs0.atime,
                    mtime := restoreSpec fs0.mtime }, 0) := by
  have hloop : copyLoop env 0 (fuel + 1) fs0 0 0 0 =
      .done { fs0 with atime := env.readClock 0 } 0 0 := by
    simp [copyLoop, hre]
  unfold rewriteFile
  rw [hloop]
  simp [ho, hf, hg, hst, hfu]

theorem rewriteFile_zero_buffer_witness :
    envOk.openOk = true ∧ envOk.fstatOk = true ∧ envOk.isReg = true ∧
    envOk.statTimesOk = true ∧ envOk.futimesOk = true ∧
    envOk.readErr 0 = false ∧
    rewriteFile envOk 0 fsEx 1 =
      some (true, { content := fsEx.content, atime := restoreSpec fsEx.atime,
                    mtime := restoreSpec fsEx.mtime }, 0) :=
  ⟨by decide, by decide, by decide, by decide, by decide, by decide,
    rewriteFile_zero_buffer envOk fsEx 0 (by decide) (by decide) (by decide)
      (by decide) (by decide) (by decide)⟩

/-- Reading at the advanced offset yields exactly the tail of the previous
read that the short write did not commit. -/
theorem readSlice_drop (c : List Nat) (off r w : Nat) :
    (readSlice c off r).drop w = readSlice c (off + w) (r - w) := by
  unfold readSlice
  rw [List.drop_take, List.drop_drop]

/-- C3: in the copy loop, for an iteration that read `rdone > 0` bytes with
no read or write error: a write of zero bytes makes the iteration fail (and
a loop failure makes `rewriteFile` return failure); a short write of
`0 < wdone < rdone` bytes does not fail — the loop continues with the offset
advanced by exactly `wdone`, the content unchanged, and the next read at the
new offset returning precisely the unwritten remainder. -/
theorem copyLoop_write_step (env : SysEnv) (b fuel : Nat) (fs : FileState)
    (offset i writes rdone wdone : Nat)
    (hre : env.readErr i = false) (hwe : env.writeErr i = false)
    (hrd : rdone = min b (fs.content.length - offset))
    (hwd : wdone = min (env.writeAmt i rdone) rdone)
    (hr : 0 < rdone) :
    (wdone = 0 →
      copyLoop env b (fuel + 1) fs offset i writes =
        .failed { fs with atime := env.readClock i } writes) ∧
    (0 < wdone → wdone < rdone →
      ∃ fs', copyLoop env b (fuel + 1) fs offset i writes =
          copyLoop env b fuel fs' (offset + wdone) (i + 1) (writes + 1) ∧
        fs'.content = fs.content ∧
        readSlice fs'.content (offset + wdone) (rdone - wdone) =
          (readSlice fs.content offset rdone).drop wdone) ∧
    (∀ fs0 fuel0 fs'' w'', env.openOk = true → env.fstatOk = true →
      env.isReg = true →
      copyLoop env b fuel0 fs0 0 0 0 = .failed fs'' w'' →
      rewriteFile env b fs0 fuel0 = some (false, fs'', w'')) := by
  subst hrd
  subst hwd
  have hr0 : ¬ min b (fs.content.length - offset) = 0 := by omega
  have hoff : offset < fs.content.length := by
    rcases Nat.lt_or_ge offset fs.content.length with h' | h'
    · exact h'
    · exfalso; apply hr0
      have : fs.content.length - offset = 0 := Nat.sub_eq_zero_of_le h'
      simp [this]
  refine ⟨?_, ?_, ?_⟩
  · intro hw0
    simp [copyLoop, hre, hr0, hwe, hw0]
  · intro hw1 hw2
    have hw0 : ¬ min (env.writeAmt i (min b (fs.content.length - offset)))
        (min b (fs.content.length - offset)) = 0 := by omega
    refine ⟨⟨writeAt fs.content offset
        ((readSlice fs.content offset (min b (fs.content.length - offset))).take
          (min (env.writeAmt i (min b (fs.content.length - offset)))
            (min b (fs.content.length - offset)))),
        env.readClock i, env.writeClock i⟩, ?_, ?_, ?_⟩
    · simp [copyLoop, hre, hr0, hwe, hw0]
    · exact writeAt_readSlice_take _ _ _ _ (Nat.le_of_lt hoff)
    · rw [writeAt_readSlice_take _ _ _ _ (Nat.le_of_lt hoff)]
      rw [readSlice_drop]
  · intro fs0 fuel0 fs'' w'' ho hf hg hcopy
    unfold rewriteFile
    simp only [ho, hf, hg, Bool.not_true, Bool.false_eq_true, if_false]
    rw [hcopy]

/-- Like `envOk`, but every write commits exactly one byte (a permanently
short-writing kernel). -/
def envShortWrite : SysEnv := { envOk with writeAmt := fun _ _ => 1 }

theorem copyLoop_write_step_witness :
    envShortWrite.readErr 0 = false ∧ envShortWrite.writeErr 0 = false ∧
    (2 : Nat) = min 2 (fsEx.content.length - 0) ∧
    (1 : Nat) = min (envShortWrite.writeAmt 0 2) 2 ∧ 0 < 2 ∧
    ((1 = 0 →
      copyLoop envShortWrite 2 (5 + 1) fsEx 0 0 0 =
        .failed { fsEx with atime := envShortWrite.readClock 0 } 0) ∧
    (0 < 1 → 1 < 2 →
      ∃ fs', copyLoop envShortWrite 2 (5 + 1) fsEx 0 0 0 =
          copyLoop envShortWrite 2 5 fs' (0 + 1) (0 + 1) (0 + 1) ∧
        fs'.content = fsEx.content ∧
        readSlice fs'.content (0 + 1) (2 - 1) =
          (readSlice fsEx.content 0 2).drop 1) ∧
    (∀ fs0 fuel0 fs'' w'', envShortWrite.openOk = true →
      envShortWrite.fstatOk = true → envShortWrite.isReg = true →
      copyLoop envShortWrite 2 fuel0 fs0 0 0 0 = .failed fs'' w'' →
      rewriteFile envShortWrite 2 fs0 fuel0 = some (false, fs'', w''))) :=
  ⟨by decide, by decide, by decide, by decide, by decide,
    copyLoop_write_step envShortWrite 2 5 fsEx 0 0 0 2 1 (by decide) (by decide)
      (by decide) (by decide) (by decide)⟩

/-- C4 (amended): if the stat snapshot exposes no usable timestamp fields,
`rewriteFile` returns failure for that file; the check happens after the
stream copy loop, so the data writes have already been performed by then. -/
theorem statTimes_unsupported_fails (env : SysEnv) (b : Nat)
    (fs0 : FileState) (fuel : Nat) (r : Bool) (fs' : FileState) (w : Nat)
    (hst : env.statTimesOk = false)
    (h : rewriteFile env b fs0 fuel = some (r, fs', w)) : r = false := by
  cases r with
  | false => rfl
  | true =>
    obtain ⟨-, -, -, hst', -, -⟩ :=
      rewriteFile_success_inv env b fs0 fuel fs' w h
    rw [hst] at hst'
    exact absurd hst' (by simp)

theorem statTimes_unsupported_fails_witness :
    envNoStatTimes.statTimesOk = false ∧ false = false :=
  ⟨by decide,
    statTimes_unsupported_fails envNoStatTimes 2 fsEx 10 false fsLooped 2
      (by decide) (by decide)⟩

/-- C4 (counterexample): under an environment whose stat snapshot lacks
usable timestamp fields, `rewriteFile` on a three-byte file fails with 2
data writes already performed — the failure is not detected before the copy
loop writes, contradicting the claim that it is caught during timestamp
capture before any write. -/
theorem statTimes_check_not_before_writes :
    ¬ (∀ fs' w, rewriteFile envNoStatTimes 2 fsEx 10 = some (false, fs', w) →
        w = 0) := by
  intro hclaim
  have h2 := hclaim fsLooped 2 (by decide)
  exact absurd h2 (by decide)

/-!
CLI driver (`main` in filerewrite.go).  The engine call is abstracted as a
boolean-valued function of the path; the driver loop, the configuration
guards, the wrapping megabyte-to-byte conversion and the single-dash flag
normalization are embedded from the source.
-/

/-- The driver loop of `main` (filerewrite.go lines 198–204): `ret`
starts at 0 and is set to 1 whenever a rewrite fails; every path is
processed in order regardless of earlier failures.  Returns the paths
passed to the engine (in invocation order, via the `trace` accumulator) and
the final exit code. -/
def driverRun (engine : String → Bool) :
    List String → List String → Nat → List String × Nat
  | [], trace, ret => (trace.reverse, ret)
  | p :: rest, trace, ret =>
      driverRun engine rest (p :: trace) (if engine p then ret else 1)

/-- Wrap an integer to a signed 64-bit value, as Go `int` arithmetic does on
64-bit hosts. -/
def wrap64 (n : Int) : Int :=
  let m := n % 18446744073709551616
  if m < 9223372036854775808 then m else m - 18446744073709551616

/-- Go 64-bit `*` with wraparound. -/
def goMul (a b : Int) : Int := wrap64 (a * b)

/-- `bufferSizeBytes := bufferSizeMB * 1024 * 1024` (filerewrite.go line
196), in unchecked machine integer arithmetic. -/
def bufferBytesOfMB (mb : Int) : Int := goMul (goMul mb 1024) 1024

/-- What `main` does after flag parsing: exit on parse error, `-h`, empty
path list, or non-positive buffer size (filerewrite.go lines 177–194) — or
proceed to the rewrite loop.  `exited n` means `os.Exit(n)` happened
before any file was touched. -/
inductive MainOutcome where
  | exited : Nat → MainOutcome
  | run : Int → List String → MainOutcome
deriving DecidableEq, Repr

/-- The configuration guards of `main`, in source order, together with the
warning lines they log. -/
def mainGuards (parseOk help : Bool) (args : List String) (bufferSizeMB : Int) :
    MainOutcome × List String :=
  if !parseOk then (.exited 2, [])
  else if help then (.exited 0, [])
  else if args.isEmpty then (.exited 2, [])
  else if bufferSizeMB ≤ 0 then
    (.exited 2,
      ["invalid buffer size " ++ toString bufferSizeMB ++
        " MB: must be greater than 0"])
  else (.run (bufferBytesOfMB bufferSizeMB) args, [])

/-- `main` end to end, with the engine abstracted: the exit code and the
list of paths actually handed to the rewrite engine. -/
def mainRun (parseOk help : Bool) (args : List String) (mb : Int)
    (engine : Int → String → Bool) : Nat × List String :=
  match mainGuards parseOk help args mb with
  | (.exited n, _) => (n, [])
  | (.run bytes paths, _) =>
      let r := driverRun (engine bytes) paths [] 0
      (r.2, r.1)

/-- Generalized driver-loop invariant: the trace accumulates every path in
order and the exit code degrades to 1 exactly when some path fails. -/
theorem driverRun_eq (engine : String → Bool) :
    ∀ (paths trace : List String) (ret : Nat),
      driverRun engine paths trace ret =
        (trace.reverse ++ paths, if paths.all engine then ret else 1) := by
  intro paths
  induction paths with
  | nil =>
    intro trace ret
    simp [driverRun]
  | cons p rest ih =>
    intro trace ret
    rw [driverRun, ih]
    by_cases hp : engine p
    · simp [hp]
    · simp [hp]

/-- C5: with otherwise valid arguments, the driver hands every path to the
rewrite engine once, in the order given (failures never stop the batch), and
the process exit code is 0 exactly when every rewrite succeeded and 1 exactly
when at least one failed. -/
theorem main_drives_all_paths (paths : List String) (mb : Int)
    (engine : Int → String → Bool) (hmb : 0 < mb) (hp : paths ≠ []) :
    (mainRun true false paths mb engine).2 = paths ∧
    ((mainRun true false paths mb engine).1 = 0 ↔
      ∀ p ∈ paths, engine (bufferBytesOfMB mb) p = true) ∧
    ((mainRun true false paths mb engine).1 = 1 ↔
      ∃ p ∈ paths, engine (bufferBytesOfMB mb) p = false) := by
  have hempty : paths.isEmpty = false := by
    cases paths with
    | nil => exact absurd rfl hp
    | cons a l => rfl
  have hmb' : ¬ mb ≤ 0 := by omega
  have hguard : mainGuards true false paths mb =
      (.run (bufferBytesOfMB mb) paths, []) := by
    simp [mainGuards, hempty, hmb']
  have hmain : mainRun true false paths mb engine =
      ((if paths.all (engine (bufferBytesOfMB mb)) then 0 else 1), paths) := by
    unfold mainRun
    rw [hguard]
    simp only []
    rw [driverRun_eq]
    simp
  rw [hmain]
  refine ⟨rfl, ?_, ?_⟩
  · by_cases hall : paths.all (engine (bufferBytesOfMB mb)) = true
    · rw [if_pos hall]
      exact iff_of_true rfl (List.all_eq_true.mp hall)
    · rw [if_neg hall]
      constructor
      · intro h; exact absurd h (by omega)
      · intro hforall; exact absurd (List.all_eq_true.mpr hforall) hall
  · by_cases hall : paths.all (engine (bufferBytesOfMB mb)) = true
    · rw [if_pos hall]
      constructor
      · intro h; exact absurd h (by omega)
      · rintro ⟨p, hmem, hpf⟩
        have := List.all_eq_true.mp hall p hmem
        rw [hpf] at this
        exact absurd this (by simp)
    · rw [if_neg hall]
      constructor
      · intro _
        have hnf : ¬ ∀ p ∈ paths, engine (bufferBytesOfMB mb) p = true :=
          fun hf => hall (List.all_eq_true.mpr hf)
        push_neg at hnf
        obtain ⟨p, hmem, hpf⟩ := hnf
        exact ⟨p, hmem, by simpa using hpf⟩
      · intro _; rfl

theorem main_drives_all_paths_witness :
    (0 : Int) < 8 ∧ (["a", "b"] : List String) ≠ [] ∧
    ((mainRun true false ["a", "b"] 8 (fun _ _ => true)).2 = ["a", "b"] ∧
     ((mainRun true false ["a", "b"] 8 (fun _ _ => true)).1 = 0 ↔
       ∀ p ∈ (["a", "b"] : List String),
         (fun (_ : Int) (_ : String) => true) (bufferBytesOfMB 8) p = true) ∧
     ((mainRun true false ["a", "b"] 8 (fun _ _ => true)).1 = 1 ↔
       ∃ p ∈ (["a", "b"] : List String),
         (fun (_ : Int) (_ : String) => true) (bufferBytesOfMB 8) p = false)) :=
  ⟨by omega, by simp,
    main_drives_all_paths ["a", "b"] 8 (fun _ _ => true) (by omega) (by simp)⟩

/-- C6: with a non-positive buffer size or an empty path list (parse having
succeeded and help not requested), the process exits with status 2 — distinct
from success (0) and per-file failure (1) — with no path ever handed to the
engine; and when paths were given and the buffer size is non-positive, the
warning identifying the invalid value is logged. -/
theorem main_config_error_exits_2 (args : List String) (mb : Int)
    (engine : Int → String → Bool) (h : mb ≤ 0 ∨ args = []) :
    mainRun true false args mb engine = (2, []) ∧
    (mb ≤ 0 → args ≠ [] →
      (mainGuards true false args mb).2 =
        ["invalid buffer size " ++ toString mb ++
          " MB: must be greater than 0"]) ∧
    (2 : Nat) ≠ 0 ∧ (2 : Nat) ≠ 1 := by
  by_cases hargs : args = []
  · subst hargs
    refine ⟨?_, ?_, by omega, by omega⟩
    · simp [mainRun, mainGuards]
    · intro _ hne
      exact absurd rfl hne
  · have hmb : mb ≤ 0 := by
      rcases h with h | h
      · exact h
      · exact absurd h hargs
    have hempty : args.isEmpty = false := by
      cases args with
      | nil => exact absurd rfl hargs
      | cons a l => rfl
    have hguard : mainGuards true false args mb =
        (.exited 2,
          ["invalid buffer size " ++ toString mb ++
            " MB: must be greater than 0"]) := by
      simp [mainGuards, hempty, hmb]
    refine ⟨?_, ?_, by omega, by omega⟩
    · unfold mainRun
      rw [hguard]
    · intro _ _
      rw [hguard]

theorem main_config_error_exits_2_witness :
    ((0 : Int) ≤ 0 ∨ (["f"] : List String) = []) ∧
    (mainRun true false ["f"] 0 (fun _ _ => true) = (2, []) ∧
     ((0 : Int) ≤ 0 → (["f"] : List String) ≠ [] →
       (mainGuards true false ["f"] 0).2 =
         ["invalid buffer size " ++ toString (0 : Int) ++
           " MB: must be greater than 0"]) ∧
     (2 : Nat) ≠ 0 ∧ (2 : Nat) ≠ 1) :=
  ⟨Or.inl (by omega),
    main_config_error_exits_2 ["f"] 0 (fun _ _ => true) (Or.inl (by omega))⟩

/-- C10: the megabyte value is converted to bytes as `mb * 1024 * 1024` in
wrapping 64-bit machine arithmetic, and the positivity check guards only the
megabyte value before the multiplication: there is an accepted positive,
representable megabyte count whose computed byte count is non-positive
(2^43 MB wraps to -2^63 bytes). -/
theorem bufferBytes_wrap_unguarded :
    ∃ mb : Int, 0 < mb ∧ mb < 9223372036854775808 ∧
      mainGuards true false ["f"] mb =
        (.run (bufferBytesOfMB mb) ["f"], []) ∧
      bufferBytesOfMB mb ≤ 0 := by
  refine ⟨8796093022208, by omega, by omega, ?_, ?_⟩
  · have hmb : ¬ (8796093022208 : Int) ≤ 0 := by omega
    simp [mainGuards, hmb]
  · decide

/-!
Single-dash long-flag normalization (`normalizeGoStyleLongFlags`,
filerewrite.go lines 17–46).  Command-line arguments are modelled as lists
of characters.
-/

/-- `strings.HasPrefix s p` on character lists. -/
def leadsWith : List Char → List Char → Bool
  | _, [] => true
  | [], _ :: _ => false
  | c :: s, d :: p => c = d && leadsWith s p

/-- The `strings.Index(name, "=")` split performed on a candidate flag:
the name up to the first `=`, and the value from the `=` on (empty when
there is none). -/
def splitAtEq : List Char → List Char × List Char
  | [] => ([], [])
  | c :: rest =>
    if c = '=' then ([], c :: rest)
    else (c :: (splitAtEq rest).1, (splitAtEq rest).2)

/-- The long flag names registered on the flag set in `main`: `verbose`,
`buffersize` and `help` (the one-letter shorthands are not long names). -/
def definedLongFlags : List (List Char) :=
  ["verbose".toList, "buffersize".toList, "help".toList]

/-- `flag.CommandLine.Lookup(name) != nil`. -/
def flagLookup (name : List Char) : Bool := definedLongFlags.contains name

/-- One step of `normalizeGoStyleLongFlags`: keep non-options, `--…` options
and the bare `-`; keep anything of length at most 2; otherwise promote a
single-dash argument whose name (up to any `=`) is a defined long flag to
`--name[=value]`. -/
def normalizeArg (arg : List Char) : List Char :=
  if !leadsWith arg ['-'] || leadsWith arg ['-', '-'] || arg == ['-'] then arg
  else if arg.length ≤ 2 then arg
  else
    let nv := splitAtEq (arg.drop 1)
    if flagLookup nv.1 then '-' :: '-' :: (nv.1 ++ nv.2) else arg

/-- `normalizeGoStyleLongFlags` maps the normalization over every argument,
with no regard to a preceding `--`. -/
def normalizeGoStyleLongFlags (args : List (List Char)) : List (List Char) :=
  args.map normalizeArg

/-- Modelled from the spec: the external flag-parsing library honors a
literal `--` as end of options, so every argument after the first `--` is
produced as a positional argument exactly as it appears in the parsed
argument list.  `none` when no `--` is present. -/
def positionalsAfterDashDash : List (List Char) → Option (List (List Char))
  | [] => none
  | a :: rest =>
    if a = ['-', '-'] then some rest else positionalsAfterDashDash rest

/-- The positional paths the driver receives from the segment after `--`:
`main` normalizes the raw arguments first and parses the result. -/
def cliPathsAfterDashDash (argv : List (List Char)) :
    Option (List (List Char)) :=
  positionalsAfterDashDash (normalizeGoStyleLongFlags argv)

/-- C7 (failing input): paths after a literal `--` are not passed to the
engine exactly as given — `normalizeGoStyleLongFlags` runs before parsing
and ignores `--`, so `filerewrite -- -verbose -buffersize` hands the engine
the mangled paths `--verbose` and `--buffersize`. -/
theorem dashdash_paths_mangled :
    positionalsAfterDashDash
        ["--".toList, "-verbose".toList, "-buffersize".toList] =
      some ["-verbose".toList, "-buffersize".toList] ∧
    cliPathsAfterDashDash
        ["--".toList, "-verbose".toList, "-buffersize".toList] =
      some ["--verbose".toList, "--buffersize".toList] ∧
    (["--verbose".toList, "--buffersize".toList] : List (List Char)) ≠
      ["-verbose".toList, "-buffersize".toList] := by
  refine ⟨?_, ?_, ?_⟩ <;> decide

end Filerewrite
